import Mathlib

/-!
Shallow embedding of the provider-directory scraper (src/main.py) and proofs
about its specified behaviour.  Python strings are modelled as `List Char`
(ASCII fragment, which is the character set the program manipulates), Python
sets of strings as duplicate-free `List (List Char)`, and the browser/DOM
boundary as explicit data (lists of card/link texts, oracles for polling).
-/

/-- Convert a string literal to the `List Char` representation used throughout. -/
def strL (s : String) : List Char := s.toList

/-- Python whitespace predicate (`\s` and `str.strip` for the ASCII range):
space, tab, newline, carriage return, vertical tab, form feed. -/
def isSpacePy (c : Char) : Bool := [' ', '\t', '\n', '\r', '\x0b', '\x0c'].contains c

/-- Python `str.strip()`: drop whitespace from both ends. -/
def pyStrip (l : List Char) : List Char :=
  ((l.dropWhile isSpacePy).reverse.dropWhile isSpacePy).reverse

/-- Does `hay` start with `needle`?  (Python `str.startswith`.) -/
def startsWithL : List Char → List Char → Bool
  | [], _ => true
  | _ :: _, [] => false
  | c :: cs, d :: ds => c = d && startsWithL cs ds

/-- Python substring containment `needle in hay`. -/
def containsSub (needle : List Char) : List Char → Bool
  | [] => startsWithL needle []
  | c :: t => startsWithL needle (c :: t) || containsSub needle t

/-- Python `str.upper()` on the ASCII range. -/
def upperL (l : List Char) : List Char := l.map Char.toUpper

/-- Python `str.lower()` on the ASCII range. -/
def lowerL (l : List Char) : List Char := l.map Char.toLower

/-- Helper for `pySplitWs`: accumulate the current (reversed) token. -/
def splitWsAux : List Char → List Char → List (List Char)
  | [], acc => if acc.isEmpty then [] else [acc.reverse]
  | c :: t, acc =>
    if isSpacePy c then
      if acc.isEmpty then splitWsAux t [] else acc.reverse :: splitWsAux t []
    else splitWsAux t (c :: acc)

/-- Python `str.split()` with no argument: split on runs of whitespace,
discarding empty tokens. -/
def pySplitWs (l : List Char) : List (List Char) := splitWsAux l []

/-- Python `str.split(sep)` for a single character separator (keeps empty
segments, always returns at least one segment). -/
def splitOnChar (sep : Char) : List Char → List (List Char)
  | [] => [[]]
  | c :: t =>
    if c = sep then [] :: splitOnChar sep t
    else
      match splitOnChar sep t with
      | seg :: rest => (c :: seg) :: rest
      | [] => [[c]]

/- ========== QueryBuilder: search-query construction and re-parsing ========== -/

/-- An input location record `{locality, state, postcode}` from postcodes.json. -/
structure Location where
  locality : List Char
  state : List Char
  postcode : List Char
deriving DecidableEq

/-- Embeds `construct_search_query` (src/main.py lines 106-111):
`f"{locality.upper()} {state.upper()} {postcode}".strip()`. -/
def construct_search_query (loc : Location) : List Char :=
  pyStrip (upperL loc.locality ++ ' ' :: (upperL loc.state ++ ' ' :: loc.postcode))

/-- Embeds `_parse_search_location` (src/main.py lines 611-619):
uppercase, split on whitespace, take the first three tokens, else empties. -/
def parse_search_location (searchLocation : List Char) :
    List Char × List Char × List Char :=
  match pySplitWs (upperL searchLocation) with
  | suburb :: state :: postcode :: _ => (suburb, state, postcode)
  | _ => ([], [], [])

/- ========== Basic character/string lemmas ========== -/

theorem toNat_ofNat_valid {n : Nat} (h : n < 55296) : (Char.ofNat n).toNat = n := by
  rw [Char.ofNat, dif_pos (Or.inl h)]
  rfl

theorem toUpper_toUpper (c : Char) : Char.toUpper (Char.toUpper c) = Char.toUpper c := by
  unfold Char.toUpper
  by_cases h : c.toNat ≥ 97 ∧ c.toNat ≤ 122
  · rw [if_pos h, toNat_ofNat_valid (by omega), if_neg (by omega)]
  · rw [if_neg h, if_neg h]

theorem isSpacePy_toUpper (c : Char) : isSpacePy (Char.toUpper c) = isSpacePy c := by
  unfold Char.toUpper
  by_cases h : c.toNat ≥ 97 ∧ c.toNat ≤ 122
  · rw [if_pos h]
    have hn : (Char.ofNat (c.toNat - 32)).toNat = c.toNat - 32 :=
      toNat_ofNat_valid (by omega)
    have hs : ∀ d : Char, 33 ≤ d.toNat → isSpacePy d = false := by
      intro d hd
      by_contra hc
      simp only [Bool.not_eq_false] at hc
      unfold isSpacePy at hc
      simp only [List.contains_cons, List.contains_nil, Bool.or_eq_true, beq_iff_eq,
        Bool.false_eq_true, or_false] at hc
      rcases hc with h1 | h1 | h1 | h1 | h1 | h1 <;>
        · rw [h1] at hd
          exact absurd hd (by decide)
    rw [hs _ (by omega), hs _ (by omega)]
  · rw [if_neg h]

theorem upperL_upperL (l : List Char) : upperL (upperL l) = upperL l := by
  unfold upperL
  rw [List.map_map]
  exact List.map_congr_left fun c _ => toUpper_toUpper c

theorem isSpacePy_eq_false_of_isDigit {c : Char} (h : c.isDigit = true) :
    isSpacePy c = false := by
  by_contra hc
  simp only [Bool.not_eq_false] at hc
  unfold isSpacePy at hc
  simp only [List.contains_cons, List.contains_nil, Bool.or_eq_true, beq_iff_eq,
    Bool.false_eq_true, or_false] at hc
  rcases hc with h1 | h1 | h1 | h1 | h1 | h1 <;> exact absurd h (by subst h1; decide)

theorem pyStrip_eq_self {l : List Char}
    (h1 : ∀ c, l.head? = some c → isSpacePy c = false)
    (h2 : ∀ c, l.getLast? = some c → isSpacePy c = false) :
    pyStrip l = l := by
  unfold pyStrip
  match hl : l with
  | [] => rfl
  | c :: t =>
    have hc : isSpacePy c = false := h1 c rfl
    rw [List.dropWhile_cons_of_neg (by simp [hc])]
    match hr : (c :: t).reverse, hrr : (c :: t).getLast? with
    | [], _ => simp at hr
    | d :: r, none => simp [List.getLast?_eq_none_iff] at hrr
    | d :: r, some e =>
      have hde : d = e := by
        have := List.head?_reverse (c :: t)
        rw [hr] at this
        simp only [List.head?_cons] at this
        rw [hrr] at this
        exact Option.some.inj this
      have hd : isSpacePy d = false := by rw [hde]; exact h2 e hrr
      rw [List.dropWhile_cons_of_neg (by simp [hd]), ← hr, List.reverse_reverse]

theorem pyStrip_length_le (l : List Char) : (pyStrip l).length ≤ l.length := by
  unfold pyStrip
  calc ((l.dropWhile isSpacePy).reverse.dropWhile isSpacePy).reverse.length
      = ((l.dropWhile isSpacePy).reverse.dropWhile isSpacePy).length := by
        rw [List.length_reverse]
    _ ≤ (l.dropWhile isSpacePy).reverse.length := (List.dropWhile_sublist _).length_le
    _ = (l.dropWhile isSpacePy).length := by rw [List.length_reverse]
    _ ≤ l.length := (List.dropWhile_sublist _).length_le

/- ========== Whitespace-splitting lemmas ========== -/

theorem splitWsAux_nonspace_cons {c : Char} (hc : isSpacePy c = false) (t acc : List Char) :
    splitWsAux (c :: t) acc = splitWsAux t (c :: acc) := by
  simp only [splitWsAux, hc]
  simp

theorem splitWsAux_space_cons {c : Char} (hc : isSpacePy c = true) (t : List Char)
    {acc : List Char} (hacc : acc ≠ []) :
    splitWsAux (c :: t) acc = acc.reverse :: splitWsAux t [] := by
  simp only [splitWsAux, hc]
  simp [hacc]

theorem splitWsAux_run {A : List Char} (hA : ∀ c ∈ A, isSpacePy c = false) :
    ∀ rest acc, splitWsAux (A ++ rest) acc = splitWsAux rest (A.reverse ++ acc) := by
  induction A with
  | nil => intro rest acc; simp
  | cons c t ih =>
    intro rest acc
    have hc : isSpacePy c = false := hA c (List.mem_cons_self c t)
    rw [List.cons_append, splitWsAux_nonspace_cons hc,
      ih (fun d hd => hA d (List.mem_cons_of_mem c hd)) rest (c :: acc)]
    simp

theorem splitWsAux_nil_of_ne {acc : List Char} (hacc : acc ≠ []) :
    splitWsAux [] acc = [acc.reverse] := by
  simp only [splitWsAux]
  simp [hacc]

theorem pySplitWs_three {A B C : List Char}
    (hA : A ≠ [] ∧ ∀ c ∈ A, isSpacePy c = false)
    (hB : B ≠ [] ∧ ∀ c ∈ B, isSpacePy c = false)
    (hC : C ≠ [] ∧ ∀ c ∈ C, isSpacePy c = false) :
    pySplitWs (A ++ ' ' :: (B ++ ' ' :: C)) = [A, B, C] := by
  unfold pySplitWs
  rw [splitWsAux_run hA.2, List.append_nil,
    splitWsAux_space_cons (by decide) _ (by simp [hA.1]),
    splitWsAux_run hB.2, List.append_nil,
    splitWsAux_space_cons (by decide) _ (by simp [hB.1])]
  have := splitWsAux_run hC.2 [] []
  rw [List.append_nil, List.append_nil] at this
  rw [this, splitWsAux_nil_of_ne (by simp [hC.1]), List.reverse_reverse,
    List.reverse_reverse, List.reverse_reverse]

theorem splitWsAux_space_cons_nil {c : Char} (hc : isSpacePy c = true) (t : List Char) :
    splitWsAux (c :: t) [] = splitWsAux t [] := by
  simp only [splitWsAux, hc]
  simp

theorem splitWsAux_upper (l : List Char) :
    ∀ acc, splitWsAux (upperL l) (upperL acc) = (splitWsAux l acc).map upperL := by
  induction l with
  | nil =>
    intro acc
    by_cases ha : acc = []
    · subst ha; rfl
    · have h1 : upperL acc ≠ [] := by simp [upperL, ha]
      rw [show upperL ([] : List Char) = [] from rfl, splitWsAux_nil_of_ne h1,
        splitWsAux_nil_of_ne ha]
      simp [upperL, List.map_reverse]
  | cons c t ih =>
    intro acc
    rw [show upperL (c :: t) = Char.toUpper c :: upperL t from rfl]
    by_cases hc : isSpacePy c = true
    · have hcu : isSpacePy (Char.toUpper c) = true := (isSpacePy_toUpper c).trans hc
      by_cases ha : acc = []
      · subst ha
        rw [show upperL ([] : List Char) = [] from rfl, splitWsAux_space_cons_nil hcu,
          splitWsAux_space_cons_nil hc]
        have h0 := ih []
        rw [show upperL ([] : List Char) = [] from rfl] at h0
        exact h0
      · have hau : upperL acc ≠ [] := by simp [upperL, ha]
        rw [splitWsAux_space_cons hcu _ hau, splitWsAux_space_cons hc _ ha]
        have h0 := ih []
        rw [show upperL ([] : List Char) = [] from rfl] at h0
        rw [h0]
        simp [upperL, List.map_reverse]
    · have hc2 : isSpacePy c = false := by revert hc; cases isSpacePy c <;> simp
      have hcu : isSpacePy (Char.toUpper c) = false := (isSpacePy_toUpper c).trans hc2
      rw [splitWsAux_nonspace_cons hcu, splitWsAux_nonspace_cons hc2]
      have h0 := ih (c :: acc)
      rw [show upperL (c :: acc) = Char.toUpper c :: upperL acc from rfl] at h0
      exact h0

theorem pySplitWs_upper (l : List Char) :
    pySplitWs (upperL l) = (pySplitWs l).map upperL := by
  have h0 := splitWsAux_upper l []
  rw [show upperL ([] : List Char) = [] from rfl] at h0
  exact h0

theorem getLast?_append_of_ne_nil {α : Type} (l₁ : List α) {l₂ : List α} (h : l₂ ≠ []) :
    (l₁ ++ l₂).getLast? = l₂.getLast? := by
  rw [List.getLast?_append]
  cases hx : l₂.getLast? with
  | none => exact absurd (List.getLast?_eq_none_iff.1 hx) h
  | some e => rfl

/-- A single nonempty whitespace-free token (the hypothesis under which search
query construction is invertible). -/
def tokenOk (l : List Char) : Bool := !l.isEmpty && l.all (fun c => !isSpacePy c)

theorem tokenOk_spec {l : List Char} (h : tokenOk l = true) :
    l ≠ [] ∧ ∀ c ∈ l, isSpacePy c = false := by
  unfold tokenOk at h
  simp only [Bool.and_eq_true, Bool.not_eq_true', List.all_eq_true,
    List.isEmpty_eq_false] at h
  obtain ⟨h1, h2⟩ := h
  exact ⟨h1, fun c hc => by have := h2 c hc; simpa using this⟩

theorem upperL_nonspace {A : List Char} (hA : ∀ c ∈ A, isSpacePy c = false) :
    ∀ c ∈ upperL A, isSpacePy c = false := by
  intro c hc
  simp only [upperL, List.mem_map] at hc
  obtain ⟨a, ha, rfl⟩ := hc
  rw [isSpacePy_toUpper]
  exact hA a ha

/-- C2 (counterexample): for a locality containing a space, parsing the
constructed query does not return the uppercased locality, state and postcode
as the claim states. -/
theorem C2_counterexample :
    parse_search_location
        (construct_search_query ⟨strL ("rose bay"), strL ("nsw"), strL ("2029")⟩) ≠
      (upperL (strL ("rose bay")), upperL (strL ("nsw")), strL ("2029")) := by
  decide

/-- C2 (amended): when locality, state and postcode are each a single nonempty
whitespace-free token, `_parse_search_location` inverts the whitespace-joining
rule of `construct_search_query`, returning the uppercased locality, state and
postcode; and any query with fewer than 3 whitespace-separated tokens parses to
three empty strings rather than an error. -/
theorem C2_parse_inverts_construct (loc : Location)
    (hl : tokenOk loc.locality = true) (hs : tokenOk loc.state = true)
    (hp : tokenOk loc.postcode = true) :
    parse_search_location (construct_search_query loc) =
      (upperL loc.locality, upperL loc.state, upperL loc.postcode)
    ∧ ∀ q : List Char, (pySplitWs q).length < 3 →
        parse_search_location q = ([], [], []) := by
  obtain ⟨hl1, hl2⟩ := tokenOk_spec hl
  obtain ⟨hs1, hs2⟩ := tokenOk_spec hs
  obtain ⟨hp1, hp2⟩ := tokenOk_spec hp
  constructor
  · have hXne : upperL loc.locality ≠ [] := by simp [upperL, hl1]
    have hstrip : construct_search_query loc =
        upperL loc.locality ++ ' ' :: (upperL loc.state ++ ' ' :: loc.postcode) := by
      unfold construct_search_query
      apply pyStrip_eq_self
      · intro c hc
        obtain ⟨d, ds, hX⟩ := List.exists_cons_of_ne_nil hXne
        rw [hX] at hc
        simp only [List.cons_append, List.head?_cons] at hc
        obtain rfl : c = d := (Option.some.inj hc).symm
        exact upperL_nonspace hl2 c (by rw [hX]; exact List.mem_cons_self ..)
      · intro c hc
        have hsplit : upperL loc.locality ++ ' ' :: (upperL loc.state ++ ' ' :: loc.postcode) =
            (upperL loc.locality ++ ' ' :: upperL loc.state ++ [' ']) ++ loc.postcode := by
          simp
        rw [hsplit, getLast?_append_of_ne_nil _ hp1] at hc
        exact hp2 c (List.mem_of_getLast?_eq_some hc)
    rw [hstrip]
    unfold parse_search_location
    have hup : upperL (upperL loc.locality ++ ' ' :: (upperL loc.state ++ ' ' :: loc.postcode)) =
        upperL loc.locality ++ ' ' :: (upperL loc.state ++ ' ' :: upperL loc.postcode) := by
      simp only [upperL, List.map_append, List.map_cons]
      rw [show Char.toUpper ' ' = ' ' from rfl]
      have e1 := upperL_upperL loc.locality
      have e2 := upperL_upperL loc.state
      simp only [upperL] at e1 e2
      rw [e1, e2]
    rw [hup, pySplitWs_three ⟨hXne, upperL_nonspace hl2⟩
      ⟨by simp [upperL, hs1], upperL_nonspace hs2⟩
      ⟨by simp [upperL, hp1], upperL_nonspace hp2⟩]
  · intro q hq
    unfold parse_search_location
    rw [pySplitWs_upper]
    match hm : pySplitWs q with
    | [] => rfl
    | [a] => rfl
    | [a, b] => rfl
    | a :: b :: c :: rest =>
      rw [hm] at hq
      simp only [List.length_cons] at hq
      omega

/-- C2 (witness): the amended theorem applied to the location SYDNEY NSW 2000. -/
theorem C2_parse_inverts_construct_witness :
    tokenOk (strL ("sydney")) = true ∧
    parse_search_location
        (construct_search_query ⟨strL ("sydney"), strL ("nsw"), strL ("2000")⟩) =
      (upperL (strL ("sydney")), upperL (strL ("nsw")), upperL (strL ("2000"))) :=
  ⟨by decide,
    (C2_parse_inverts_construct ⟨strL ("sydney"), strL ("nsw"), strL ("2000")⟩
      (by decide) (by decide) (by decide)).1⟩

/- ========== TelephoneIdentitySet: normalisation and deduplication ========== -/

/-- Embeds `clean_telephone` (src/main.py lines 84-90): on a nonempty input,
strip the ends, then delete every space, hyphen and parenthesis
(the regex `re.sub` over the class of whitespace, hyphen, parentheses). -/
def clean_telephone (t : List Char) : List Char :=
  if t = [] then []
  else (pyStrip t).filter (fun c => !(isSpacePy c || c = '-' || c = '(' || c = ')'))

/-- Embeds `is_duplicate_telephone` (src/main.py lines 92-97): empty telephone
is never a duplicate; otherwise membership of the cleaned number. -/
def is_duplicate_telephone (tels : List (List Char)) (t : List Char) : Bool :=
  if t = [] then false else tels.contains (clean_telephone t)

/-- Embeds `add_telephone_to_memory` (src/main.py lines 99-104); Python
`set.add` is modelled as conditional insertion into a duplicate-free list. -/
def add_telephone_to_memory (tels : List (List Char)) (t : List Char) :
    List (List Char) :=
  if t = [] then tels
  else
    let c := clean_telephone t
    if c = [] then tels
    else if tels.contains c then tels else c :: tels

theorem add_telephone_mono (tels : List (List Char)) (t : List Char) :
    ∀ x ∈ tels, x ∈ add_telephone_to_memory tels t := by
  intro x hx
  unfold add_telephone_to_memory
  dsimp only
  split_ifs <;> first
    | exact hx
    | exact List.mem_cons_of_mem _ hx

/- ========== Telephone pattern matching (the six phone regexes) ========== -/

/-- One atom of a telephone pattern shape: a digit class or a literal
separator character. -/
inductive ShapeAtom where
  | digit : ShapeAtom
  | lit : Char → ShapeAtom
deriving DecidableEq

/-- Does one character match one shape atom? -/
def atomMatch : ShapeAtom → Char → Bool
  | .digit, c => c.isDigit
  | .lit d, c => c = d

/-- Consume the whole shape from the front of the input, returning the
matched slice when it matches. -/
def shapeConsume : List Char → List ShapeAtom → Option (List Char)
  | _, [] => some []
  | [], _ :: _ => none
  | c :: cs, a :: atoms =>
    if atomMatch a c then (shapeConsume cs atoms).map (fun m => c :: m) else none

/-- The atom sequence of one phone pattern: digit groups `gs` joined by an
optional literal separator (the `\d{a} \d{b} \d{c}`-style bodies). -/
def shapeOf : List Nat → Option Char → List ShapeAtom
  | [], _ => []
  | [g], _ => List.replicate g .digit
  | g :: gs, sep =>
    List.replicate g .digit ++
      (match sep with
       | some c => [ShapeAtom.lit c]
       | none => []) ++ shapeOf gs sep

/-- A regex word character (`\w`): ASCII alphanumeric or underscore. -/
def wordC (c : Char) : Bool := c.isAlphanum || c = '_'

/-- Is the character at position `i` (when it exists) a word character? -/
def charAtIsWord (s : List Char) (i : Nat) : Bool :=
  match s[i]? with
  | some c => wordC c
  | none => false

/-- A `\b` word boundary at position `i` of `s`. -/
def atBoundary (s : List Char) (i : Nat) : Bool :=
  (decide (0 < i) && charAtIsWord s (i - 1)) != charAtIsWord s i

/-- Non-overlapping left-to-right scan with `re.findall` semantics for a
word-bounded shape; `fuel` bounds the scan position. -/
def findallShapeAux (s : List Char) (shape : List ShapeAtom) :
    Nat → Nat → List (List Char)
  | 0, _ => []
  | fuel + 1, i =>
    match shapeConsume (s.drop i) shape with
    | some m =>
      if atBoundary s i && atBoundary s (i + shape.length) then
        m :: findallShapeAux s shape fuel (i + shape.length)
      else findallShapeAux s shape fuel (i + 1)
    | none => findallShapeAux s shape fuel (i + 1)

/-- `re.findall` of the word-bounded digit-group pattern `pr` over `s`. -/
def findallShape (pr : List Nat × Option Char) (s : List Char) : List (List Char) :=
  findallShapeAux s (shapeOf pr.1 pr.2) (s.length + 1) 0

/-- The six Australian phone patterns of `_extract_telephone`
(src/main.py lines 557-564), in source order. -/
def phonePatterns : List (List Nat × Option Char) :=
  [([2, 4, 4], some ' '), ([4, 3, 3], some ' '), ([2, 4, 4], some '-'),
   ([4, 3, 3], some '-'), ([8], none), ([10], none)]

/-- A candidate telephone is rejected when it starts with 2024 or 2025
(the calendar-date filter of `_extract_telephone`). -/
def acceptableTel (m : List Char) : Bool :=
  !startsWithL (strL ("2025")) m && !startsWithL (strL ("2024")) m

/-- The pattern loop of `_extract_telephone`: for each pattern in order, if it
has matches, return the first acceptable one stripped; otherwise continue. -/
def extractTelAux (text : List Char) : List (List Nat × Option Char) → List Char
  | [] => []
  | pr :: rest =>
    let ms := findallShape pr text
    if ms.isEmpty then extractTelAux text rest
    else
      match ms.find? acceptableTel with
      | some m => pyStrip m
      | none => extractTelAux text rest

/-- Embeds `_extract_telephone` (src/main.py lines 554-574). -/
def extract_telephone (text : List Char) : List Char :=
  extractTelAux text phonePatterns

/-- Modelled from the claim wording of C5: the result is the first acceptable
match (candidates starting with 2024 or 2025 rejected), taking patterns in
their fixed order and matches of one pattern in scan order; the empty string
when no pattern yields an acceptable candidate. -/
def telephoneClaimSpec (text : List Char) : List Char :=
  match phonePatterns.findSome?
      (fun pr => (findallShape pr text).find? acceptableTel) with
  | some m => m
  | none => []

theorem shapeConsume_cons {c : Char} {cs : List Char} {a : ShapeAtom}
    {atoms : List ShapeAtom} {m : List Char}
    (h : shapeConsume (c :: cs) (a :: atoms) = some m) :
    atomMatch a c = true ∧ ∃ m2, shapeConsume cs atoms = some m2 ∧ m = c :: m2 := by
  unfold shapeConsume at h
  by_cases ha : atomMatch a c = true
  · rw [if_pos ha] at h
    cases hm : shapeConsume cs atoms with
    | none => rw [hm] at h; simp at h
    | some m2 =>
      rw [hm] at h
      simp only [Option.map_some'] at h
      exact ⟨ha, m2, rfl, (Option.some.inj h).symm⟩
  · rw [if_neg ha] at h
    simp at h

theorem shapeConsume_getLast {atoms : List ShapeAtom} :
    ∀ {cs m : List Char} {a : ShapeAtom}, shapeConsume cs atoms = some m →
      atoms.getLast? = some a → ∃ c, m.getLast? = some c ∧ atomMatch a c = true := by
  induction atoms with
  | nil => intro cs m a _ hL; simp at hL
  | cons a1 rest ih =>
    intro cs m a h hL
    cases cs with
    | nil => simp [shapeConsume] at h
    | cons c cs2 =>
      obtain ⟨ha1, m2, hm2, rfl⟩ := shapeConsume_cons h
      cases rest with
      | nil =>
        have hnilatoms : shapeConsume cs2 [] = some [] := by cases cs2 <;> rfl
        have hm2nil : m2 = [] := by
          rw [hnilatoms] at hm2
          exact (Option.some.inj hm2).symm
        subst hm2nil
        simp only [List.getLast?_singleton]
        have haa : a = a1 := by simpa using hL.symm
        exact ⟨c, rfl, haa ▸ ha1⟩
      | cons a2 rest2 =>
        rw [List.getLast?_cons_cons] at hL
        obtain ⟨c2, hc2, hmatch⟩ := ih hm2 hL
        have hm2ne : m2 ≠ [] := by
          intro hnil
          rw [hnil] at hc2
          simp at hc2
        refine ⟨c2, ?_, hmatch⟩
        rw [show c :: m2 = [c] ++ m2 from rfl, getLast?_append_of_ne_nil _ hm2ne]
        exact hc2

theorem findallShapeAux_mem {s : List Char} {shape : List ShapeAtom} :
    ∀ {fuel i : Nat} {m : List Char}, m ∈ findallShapeAux s shape fuel i →
      ∃ j, shapeConsume (s.drop j) shape = some m := by
  intro fuel
  induction fuel with
  | zero => intro i m h; simp [findallShapeAux] at h
  | succ n ih =>
    intro i m h
    unfold findallShapeAux at h
    revert h
    cases hc : shapeConsume (s.drop i) shape with
    | none => intro h; exact ih h
    | some m0 =>
      intro h
      dsimp only at h
      by_cases hb : (atBoundary s i && atBoundary s (i + shape.length)) = true
      · rw [if_pos hb] at h
        rcases List.mem_cons.1 h with h1 | h1
        · exact ⟨i, h1 ▸ hc⟩
        · exact ih h1
      · rw [if_neg hb] at h
        exact ih h

theorem phone_match_strip {pr : List Nat × Option Char} (hpr : pr ∈ phonePatterns)
    {text m : List Char} (hm : m ∈ findallShape pr text) : pyStrip m = m := by
  have hshape : (shapeOf pr.1 pr.2).head? = some ShapeAtom.digit ∧
      (shapeOf pr.1 pr.2).getLast? = some ShapeAtom.digit := by
    fin_cases hpr <;> exact ⟨by decide, by decide⟩
  obtain ⟨j, hc⟩ := findallShapeAux_mem hm
  match hsh : shapeOf pr.1 pr.2, hshape with
  | [], ⟨h1, _⟩ => simp at h1
  | a0 :: atoms, ⟨h1, h2⟩ =>
    have ha0 : a0 = ShapeAtom.digit := by simpa using h1
    rw [hsh] at hc
    cases hcs : text.drop j with
    | nil => rw [hcs] at hc; simp [shapeConsume] at hc
    | cons c cs2 =>
      rw [hcs] at hc
      obtain ⟨hmatch, m2, hm2, rfl⟩ := shapeConsume_cons hc
      have hcd : c.isDigit = true := by rw [ha0] at hmatch; exact hmatch
      obtain ⟨e, he, hed⟩ := shapeConsume_getLast hc h2
      have hedig : e.isDigit = true := hed
      apply pyStrip_eq_self
      · intro d hd
        simp only [List.head?_cons] at hd
        obtain rfl : d = c := (Option.some.inj hd).symm
        exact isSpacePy_eq_false_of_isDigit hcd
      · intro d hd
        rw [he] at hd
        obtain rfl : d = e := (Option.some.inj hd).symm
        exact isSpacePy_eq_false_of_isDigit hedig

theorem extractTelAux_eq_findSome (text : List Char) :
    ∀ l : List (List Nat × Option Char),
      (∀ pr ∈ l, ∀ m ∈ findallShape pr text, pyStrip m = m) →
      extractTelAux text l =
        (l.findSome? (fun pr => (findallShape pr text).find? acceptableTel)).getD [] := by
  intro l
  induction l with
  | nil => intro _; rfl
  | cons pr rest ih =>
    intro hstrip
    have hrest : ∀ pr2 ∈ rest, ∀ m ∈ findallShape pr2 text, pyStrip m = m :=
      fun pr2 h2 => hstrip pr2 (List.mem_cons_of_mem pr h2)
    unfold extractTelAux
    rw [List.findSome?_cons]
    by_cases he : (findallShape pr text).isEmpty = true
    · have hnil : findallShape pr text = [] := List.isEmpty_iff.1 he
      rw [if_pos he, hnil]
      simpa using ih hrest
    · rw [if_neg he]
      cases hf : (findallShape pr text).find? acceptableTel with
      | none => simpa using ih hrest
      | some m =>
        have hmem : m ∈ findallShape pr text := List.mem_of_find?_eq_some hf
        simp only [Option.getD_some]
        exact hstrip pr (List.mem_cons_self ..) m hmem

/-- C5: `_extract_telephone` tries the six Australian phone patterns in their
fixed order, returns the first acceptable match (candidates starting with 2024
or 2025 are rejected) from the first pattern producing one, and returns the
empty string when no pattern yields an acceptable candidate — never an error. -/
theorem C5_telephone_extraction (text : List Char) :
    extract_telephone text = telephoneClaimSpec text := by
  unfold extract_telephone telephoneClaimSpec
  rw [extractTelAux_eq_findSome text phonePatterns
    (fun pr hpr m hm => phone_match_strip hpr hm)]
  cases phonePatterns.findSome? (fun pr => (findallShape pr text).find? acceptableTel) with
  | none => rfl
  | some m => rfl

/- ========== A small backtracking regex engine (email/website/address) ===== -/

/-- Regular-expression syntax used by the field extractors: character classes,
literals, word boundaries, sequencing, prioritised alternation, greedy star. -/
inductive RE where
  | eps : RE
  | cls : (Char → Bool) → RE
  | lit : List Char → RE
  | bnd : RE
  | seq : RE → RE → RE
  | alt : RE → RE → RE
  | star : RE → RE

/-- Greedy star over a matcher `f`: prefer more repetitions, each repetition
consuming at least one character; `fuel` bounds the repetition count. -/
def matStarF (f : Nat → List Nat) : Nat → Nat → List Nat
  | 0, i => [i]
  | fuel + 1, i =>
    ((f i).filter (fun j => i < j)).flatMap (matStarF f fuel) ++ [i]

/-- All end positions (in backtracking priority order, as Python `re` explores
them) of matches of `r` starting at position `i` of `s`. -/
def matRE (s : List Char) : RE → Nat → List Nat
  | .eps, i => [i]
  | .cls p, i =>
    match s[i]? with
    | some c => if p c then [i + 1] else []
    | none => []
  | .lit l, i => if startsWithL l (s.drop i) then [i + l.length] else []
  | .bnd, i => if atBoundary s i then [i] else []
  | .seq a b, i => (matRE s a i).flatMap (fun j => matRE s b j)
  | .alt a b, i => matRE s a i ++ matRE s b i
  | .star a, i => matStarF (fun j => matRE s a j) (s.length + 1 - i) i

/-- First (most preferred) match end at position `i`, if any. -/
def reMatchEnd (s : List Char) (r : RE) (i : Nat) : Option Nat :=
  (matRE s r i).head?

/-- Scan positions left to right for the leftmost match (`re.search`). -/
def reSearchAux (s : List Char) (r : RE) : Nat → Nat → Option (Nat × Nat)
  | 0, _ => none
  | fuel + 1, i =>
    match reMatchEnd s r i with
    | some e => some (i, e)
    | none => reSearchAux s r fuel (i + 1)

/-- `re.search`: leftmost match of `r` in `s`, as (start, end) positions. -/
def reSearch (s : List Char) (r : RE) : Option (Nat × Nat) :=
  reSearchAux s r (s.length + 1) 0

/-- The slice of `s` from `i` (inclusive) to `e` (exclusive). -/
def sliceL (s : List Char) (i e : Nat) : List Char := (s.drop i).take (e - i)

/-- `re.findall`: non-overlapping leftmost matches, scanning left to right. -/
def reFindAllAux (s : List Char) (r : RE) : Nat → Nat → List (List Char)
  | 0, _ => []
  | fuel + 1, i =>
    match reMatchEnd s r i with
    | some e =>
      if i < e then sliceL s i e :: reFindAllAux s r fuel e
      else sliceL s i e :: reFindAllAux s r fuel (i + 1)
    | none => reFindAllAux s r fuel (i + 1)

/-- All non-overlapping matches of `r` in `s` in scan order. -/
def reFindAll (s : List Char) (r : RE) : List (List Char) :=
  reFindAllAux s r (s.length + 1) 0

/-- `X+`: one occurrence followed by a greedy star. -/
def REplus (a : RE) : RE := .seq a (.star a)

/-- `X?`: greedy option. -/
def REopt (a : RE) : RE := .alt a .eps

/-- `X{2,}`: two mandatory occurrences followed by a greedy star. -/
def REtwoPlus (a : RE) : RE := .seq a (REplus a)

/-- The email pattern of `_extract_email` (src/main.py line 578):
word-bounded local part, at sign, domain, dot, 2+ letters (the class
`[A-Z|a-z]` literally includes the pipe character). -/
def emailRE : RE :=
  .seq .bnd
    (.seq (REplus (.cls (fun c => c.isAlpha || c.isDigit ||
        ['.', '_', '%', '+', '-'].contains c)))
      (.seq (.lit [ '@' ])
        (.seq (REplus (.cls (fun c => c.isAlpha || c.isDigit ||
            ['.', '-'].contains c)))
          (.seq (.lit [ '.' ])
            (.seq (REtwoPlus (.cls (fun c => c.isUpper || c = '|' || c.isLower)))
              .bnd)))))

/-- Embeds `_extract_email` (src/main.py lines 576-582). -/
def extract_email (text : List Char) : List Char :=
  match reSearch text emailRE with
  | some (i, e) => pyStrip (sliceL text i e)
  | none => []

/-- The class `[-\w.]` of the website pattern. -/
def wsCls1 (c : Char) : Bool := c = '-' || wordC c || c = '.'

/-- The class `[\da-fA-F]` (hexadecimal digit). -/
def hexC (c : Char) : Bool :=
  c.isDigit || (decide ('a' ≤ c) && decide (c ≤ 'f')) ||
    (decide ('A' ≤ c) && decide (c ≤ 'F'))

/-- The class `[/\w\.-]` of the website pattern. -/
def wsCls2 (c : Char) : Bool := c = '/' || wordC c || c = '.' || c = '-'

/-- The class `[/\w\.-=&%]` of the website pattern. -/
def wsCls3 (c : Char) : Bool :=
  c = '/' || wordC c || c = '.' || c = '-' || c = '=' || c = '&' || c = '%'

/-- The website pattern of `_extract_website` (src/main.py line 586):
`https?://` then one-plus of (`[-\w.]` or percent-escape), then tail classes. -/
def websiteRE : RE :=
  .seq (.lit (strL ("http")))
    (.seq (REopt (.lit [ 's' ]))
      (.seq (.lit (strL ("://")))
        (.seq (REplus (.alt (.cls wsCls1)
            (.seq (.lit [ '%' ]) (.seq (.cls hexC) (.cls hexC)))))
          (.seq (.star (.cls wsCls2))
            (.seq (REopt (.lit [ '?' ])) (.star (.cls wsCls3)))))))

/-- The match loop of `_extract_website`: first match that is not on the
sites own domain nor the bot-probe domain, stripped; else empty. -/
def websiteFirstExternal : List (List Char) → List Char
  | [] => []
  | m :: rest =>
    if !containsSub (strL ("myagedcare.gov.au")) m &&
        !containsSub (strL ("bot.sannysoft.com")) m then pyStrip m
    else websiteFirstExternal rest

/-- Embeds `_extract_website` (src/main.py lines 584-593). -/
def extract_website (text : List Char) : List Char :=
  websiteFirstExternal (reFindAll text websiteRE)

/-- The digit class `\d`. -/
def digC : RE := .cls (fun c => c.isDigit)

/-- `\d{4}`. -/
def REdigit4 : RE := .seq digC (.seq digC (.seq digC digC))

/-- The whitespace class `\s`. -/
def spC : RE := .cls isSpacePy

/-- The alternation `(?:ACT|NSW|NT|QLD|SA|TAS|VIC|WA)` in source order. -/
def stateAlt : RE :=
  .alt (.lit (strL ("ACT"))) (.alt (.lit (strL ("NSW"))) (.alt (.lit (strL ("NT")))
    (.alt (.lit (strL ("QLD"))) (.alt (.lit (strL ("SA"))) (.alt (.lit (strL ("TAS")))
      (.alt (.lit (strL ("VIC"))) (.lit (strL ("WA")))))))))

/-- The first address pattern of `_extract_address` (src/main.py line 598):
`\d+[\sA-Za-z]+,?\s+[A-Z\s]+\s+\d{4}\s+<state>` (the capturing group spans
the whole pattern, so group(1) is the whole match). -/
def addressRE1 : RE :=
  .seq (REplus digC)
    (.seq (REplus (.cls (fun c => isSpacePy c || c.isAlpha)))
      (.seq (REopt (.lit [ ',' ]))
        (.seq (REplus spC)
          (.seq (REplus (.cls (fun c => c.isUpper || isSpacePy c)))
            (.seq (REplus spC)
              (.seq REdigit4 (.seq (REplus spC) stateAlt)))))))

/-- The second address pattern (src/main.py line 604): same but without the
optional comma. -/
def addressRE2 : RE :=
  .seq (REplus digC)
    (.seq (REplus (.cls (fun c => isSpacePy c || c.isAlpha)))
      (.seq (REplus spC)
        (.seq (REplus (.cls (fun c => c.isUpper || isSpacePy c)))
          (.seq (REplus spC)
            (.seq REdigit4 (.seq (REplus spC) stateAlt))))))

/-- Embeds `_extract_address` (src/main.py lines 595-609): both patterns are
applied to the upper-cased text; the first match wins, stripped. -/
def extract_address (text : List Char) : List Char :=
  match reSearch (upperL text) addressRE1 with
  | some (i, e) => pyStrip (sliceL (upperL text) i e)
  | none =>
    match reSearch (upperL text) addressRE2 with
    | some (i, e) => pyStrip (sliceL (upperL text) i e)
    | none => []

/- ========== DetailPageParser: company name heuristics ========== -/

/-- The navigation/menu keywords excluded by the text heuristic
(src/main.py line 550). -/
def cnameKeywords : List (List Char) :=
  [strL ("home"), strL ("find a provider"), strL ("search"), strL ("print"),
   strL ("share")]

/-- Python `str.isupper` on the ASCII range: at least one cased character and
no lowercase character. -/
def pyIsUpper (l : List Char) : Bool :=
  l.any (fun c => c.isAlpha) && l.all (fun c => !c.isLower)

/-- Does a word start with an uppercase letter (`word[0].isupper()`)? -/
def headIsUpper (w : List Char) : Bool :=
  match w with
  | c :: _ => c.isUpper
  | [] => false

/-- The qualification test of `_extract_company_name_from_text` for one
stripped line: `line.isupper() or any(word[0].isupper() ...)`, and no
navigation keyword occurs in `line.lower()`. -/
def companyLineOk (line : List Char) : Bool :=
  (pyIsUpper line || (pySplitWs line).any headIsUpper) &&
    !cnameKeywords.any (fun kw => containsSub kw (lowerL line))

/-- The line loop of `_extract_company_name_from_text`. -/
def extractCompanyTextAux : List (List Char) → List Char
  | [] => []
  | l :: ls =>
    let line := pyStrip l
    if 3 < line.length ∧ line.length < 100 then
      if companyLineOk line then line else extractCompanyTextAux ls
    else extractCompanyTextAux ls

/-- Embeds `_extract_company_name_from_text` (src/main.py lines 541-552). -/
def extract_company_name_from_text (text : List Char) : List Char :=
  extractCompanyTextAux (splitOnChar '\n' text)

/-- Modelled from the claim wording of C9: a line is title-cased when every
whitespace-separated word starts with an uppercase letter. -/
def titleCasedLine (line : List Char) : Bool :=
  !(pySplitWs line).isEmpty && (pySplitWs line).all headIsUpper

/-- Modelled from the claim wording of C9: first stripped line of length 4-99
that is all-uppercase or title-cased and keyword-free; else empty. -/
def companyNameClaimSpec (text : List Char) : List Char :=
  (((splitOnChar '\n' text).map pyStrip).find?
    (fun line => decide (3 < line.length ∧ line.length < 100) &&
      ((pyIsUpper line || titleCasedLine line) &&
        !cnameKeywords.any (fun kw => containsSub kw (lowerL line))))).getD []

/-- The amended C9 acceptance: all-uppercase or at least one capitalised word,
as the code tests, instead of fully title-cased. -/
def companyNameAmendedSpec (text : List Char) : List Char :=
  (((splitOnChar '\n' text).map pyStrip).find?
    (fun line => decide (3 < line.length ∧ line.length < 100) &&
      companyLineOk line)).getD []

/-- C9 (counterexample): the line `alpha beta Gamma` is neither all-uppercase
nor title-cased, yet the code returns it (it has one capitalised word), so the
claim as stated fails on this input. -/
theorem C9_counterexample :
    extract_company_name_from_text (strL ("alpha beta Gamma")) ≠
      companyNameClaimSpec (strL ("alpha beta Gamma")) := by
  decide

theorem extractCompanyTextAux_eq (ls : List (List Char)) :
    extractCompanyTextAux ls =
      ((ls.map pyStrip).find?
        (fun line => decide (3 < line.length ∧ line.length < 100) &&
          companyLineOk line)).getD [] := by
  induction ls with
  | nil => rfl
  | cons l rest ih =>
    unfold extractCompanyTextAux
    dsimp only
    rw [List.map_cons]
    by_cases h1 : 3 < (pyStrip l).length ∧ (pyStrip l).length < 100
    · rw [if_pos h1]
      by_cases h2 : companyLineOk (pyStrip l) = true
      · rw [if_pos h2, List.find?_cons_of_pos _ (by simp [h1, h2])]
        rfl
      · rw [if_neg h2, List.find?_cons_of_neg _ (by simp [h2]), ih]
    · rw [if_neg h1, List.find?_cons_of_neg _ (by simp [h1]), ih]

/-- C9 (amended): `_extract_company_name_from_text` returns the first stripped
line of the text that is 4-99 characters long and is either all-uppercase or
contains at least one word starting with an uppercase letter, excluding any
line containing a navigation keyword (case-insensitively); the empty string
when no line qualifies. -/
theorem C9_company_name_fallback (text : List Char) :
    extract_company_name_from_text text = companyNameAmendedSpec text := by
  unfold extract_company_name_from_text companyNameAmendedSpec
  exact extractCompanyTextAux_eq (splitOnChar '\n' text)

/-- Embeds `_extract_company_name_from_elements` (src/main.py lines 514-539),
over the inner text of the first element matched by each name selector
(`none` when a selector matches nothing). -/
def extract_company_name_from_elements : List (Option (List Char)) → List Char
  | [] => []
  | none :: rest => extract_company_name_from_elements rest
  | some t :: rest =>
    if (pyStrip t).isEmpty then extract_company_name_from_elements rest
    else
      match splitOnChar '\n' (pyStrip t) with
      | clean :: _ =>
        if clean.length < 100 then clean
        else extract_company_name_from_elements rest
      | [] => extract_company_name_from_elements rest

/- ========== DetailPageParser: page model and scrape_detail_page ========== -/

/-- The observable state of a navigated detail page: final URL, title, HTML
content, rendered text, and the heading texts for the company-name
selectors. -/
structure DetailPage where
  url : List Char
  title : List Char
  content : List Char
  rawText : List Char
  headingTexts : List (Option (List Char))

/-- The provider record (dataclass `ProviderData`, src/main.py lines 30-42). -/
structure ProviderData where
  company_name : List Char
  address : List Char
  suburb : List Char
  state : List Char
  postcode : List Char
  telephone : List Char
  email : List Char
  website : List Char
  search_type : List Char
  search_location : List Char
  result_url : List Char
deriving DecidableEq

/-- The 404 needle `Sorry, we cant find` with its apostrophe (code 39). -/
def sorryNeedle : List Char := strL ("Sorry, we can") ++ [Char.ofNat 39] ++ strL ("t find")

/-- The needle `results`. -/
def resultsNeedle : List Char := strL ("results")

/-- The needle for a bounced search URL. -/
def searchNeedle : List Char := strL ("/find-a-provider/search")

/-- The needle distinguishing detail URLs under the search path. -/
def searchSlashNeedle : List Char := strL ("/find-a-provider/search/")

/-- The needle `Page not found`. -/
def notFoundNeedle : List Char := strL ("Page not found")

/-- The needle `404`. -/
def four04Needle : List Char := strL ("404")

/-- The search-landing copy needle. -/
def landingNeedle : List Char := strL ("Find aged care providers to support your needs")

/-- The company name derived by `scrape_detail_page`: heading extraction with
raw-text fallback. -/
def derivedCompany (p : DetailPage) : List Char :=
  let c0 := extract_company_name_from_elements p.headingTexts
  if c0.isEmpty then extract_company_name_from_text p.rawText else c0

/-- Embeds the parsing/validation part of `scrape_detail_page`
(src/main.py lines 386-479), given the telephone identity set and the
post-navigation page state; `url` is the link argument (recorded as
result_url); `p.url` is the current URL checked by the gates. -/
def scrape_detail_page (tels : List (List Char)) (url : List Char) (p : DetailPage)
    (searchType searchLocation : List Char) : Option ProviderData :=
  if containsSub resultsNeedle p.url ||
      (containsSub searchNeedle p.url && !containsSub searchSlashNeedle p.url) then none
  else if containsSub sorryNeedle p.title || containsSub four04Needle p.title ||
      containsSub notFoundNeedle p.content then none
  else if decide ((pyStrip p.rawText).length < 100) ||
      containsSub sorryNeedle p.rawText then none
  else if containsSub landingNeedle p.rawText then none
  else
    let telephone := extract_telephone p.rawText
    let email := extract_email p.rawText
    let website := extract_website p.rawText
    let address := extract_address p.rawText
    let company := derivedCompany p
    if company.isEmpty || company == landingNeedle then none
    else if !telephone.isEmpty && is_duplicate_telephone tels telephone then none
    else
      let slp := parse_search_location searchLocation
      some {
        company_name := company, address := address,
        suburb := slp.1, state := slp.2.1, postcode := slp.2.2,
        telephone := telephone, email := email, website := website,
        search_type := searchType, search_location := searchLocation,
        result_url := url }

/-- All validity gates of `scrape_detail_page` before the duplicate-telephone
check pass on page `p`. -/
def passesPreDupGates (p : DetailPage) : Bool :=
  !(containsSub resultsNeedle p.url ||
      (containsSub searchNeedle p.url && !containsSub searchSlashNeedle p.url)) &&
  !(containsSub sorryNeedle p.title || containsSub four04Needle p.title ||
      containsSub notFoundNeedle p.content) &&
  !(decide ((pyStrip p.rawText).length < 100) ||
      containsSub sorryNeedle p.rawText) &&
  !containsSub landingNeedle p.rawText &&
  !(derivedCompany p).isEmpty && !(derivedCompany p == landingNeedle)

/-- A concrete rendered text of a valid provider page. -/
def sunshineText : List Char :=
  strL ("SUNSHINE AGED CARE") ++ '\n' ::
    strL ("Call us on 02 8388 8000, or email info@example.com.au, for details, about our quality of care, and support today.")

/-- A concrete valid provider detail page. -/
def sunshinePage : DetailPage :=
  { url := strL ("https://www.myagedcare.gov.au/find-a-provider/provider/sunshine-aged-care"),
    title := strL ("Sunshine Aged Care | My Aged Care"),
    content := strL ("<html>provider page</html>"),
    rawText := sunshineText,
    headingTexts := [some (strL ("SUNSHINE AGED CARE"))] }

/-- The result URL used in the concrete parser evaluations. -/
def sunshineUrl : List Char :=
  strL ("https://www.myagedcare.gov.au/find-a-provider/provider/sunshine-aged-care")

set_option maxRecDepth 100000 in
/-- C6: the validity gate of `scrape_detail_page` rejects every page whose
rendered text is under 100 characters, every page whose text or title
indicates a broken/not-found page (the literal `Sorry, we cant find that
page` text contains the checked needle), every page containing the
search-landing copy, and every page from which no usable company name is
derived; and on a concrete valid page with company name SUNSHINE AGED CARE,
phone 02 8388 8000 and email info@example.com.au, exactly those three fields
are populated, with address and website empty. -/
theorem C6_validity_gate :
    (∀ (tels : List (List Char)) (url : List Char) (p : DetailPage)
        (ty loc : List Char),
      (p.rawText.length < 100 → scrape_detail_page tels url p ty loc = none) ∧
      (containsSub sorryNeedle p.rawText = true →
        scrape_detail_page tels url p ty loc = none) ∧
      ((containsSub sorryNeedle p.title || containsSub four04Needle p.title ||
          containsSub notFoundNeedle p.content) = true →
        scrape_detail_page tels url p ty loc = none) ∧
      (containsSub landingNeedle p.rawText = true →
        scrape_detail_page tels url p ty loc = none) ∧
      (derivedCompany p = [] → scrape_detail_page tels url p ty loc = none)) ∧
    scrape_detail_page [] sunshineUrl sunshinePage (strL ("aged-care-homes"))
        (strL ("SYDNEY NSW 2000")) =
      some {
        company_name := strL ("SUNSHINE AGED CARE"), address := [],
        suburb := strL ("SYDNEY"), state := strL ("NSW"),
        postcode := strL ("2000"), telephone := strL ("02 8388 8000"),
        email := strL ("info@example.com.au"), website := [],
        search_type := strL ("aged-care-homes"),
        search_location := strL ("SYDNEY NSW 2000"),
        result_url := sunshineUrl } := by
  constructor
  · intro tels url p ty loc
    refine ⟨?_, ?_, ?_, ?_, ?_⟩
    · intro h
      have hcond : (decide ((pyStrip p.rawText).length < 100) ||
          containsSub sorryNeedle p.rawText) = true := by
        have hlt : (pyStrip p.rawText).length < 100 :=
          lt_of_le_of_lt (pyStrip_length_le _) h
        simp [hlt]
      unfold scrape_detail_page
      simp only [hcond]
      split_ifs <;> rfl
    · intro h
      have hcond : (decide ((pyStrip p.rawText).length < 100) ||
          containsSub sorryNeedle p.rawText) = true := by simp [h]
      unfold scrape_detail_page
      simp only [hcond]
      split_ifs <;> rfl
    · intro h
      unfold scrape_detail_page
      simp only [h]
      split_ifs <;> rfl
    · intro h
      unfold scrape_detail_page
      simp only [h]
      split_ifs <;> rfl
    · intro h
      have hcond : ((derivedCompany p).isEmpty ||
          derivedCompany p == landingNeedle) = true := by simp [h]
      unfold scrape_detail_page
      simp only [hcond]
      split_ifs <;> rfl
  · decide

/-- A page whose rendered text is the literal not-found message (under 100
characters). -/
def notFoundPage : DetailPage :=
  { url := strL ("https://www.myagedcare.gov.au/find-a-provider/provider/x"),
    title := strL ("My Aged Care"),
    content := [],
    rawText := strL ("Sorry, we can") ++ [Char.ofNat 39] ++ strL ("t find that page"),
    headingTexts := [] }

set_option maxRecDepth 100000 in
/-- C6 (witness): the gate theorem applied to the literal not-found page. -/
theorem C6_validity_gate_witness :
    notFoundPage.rawText.length < 100 ∧
    scrape_detail_page [] [] notFoundPage [] [] = none :=
  ⟨by decide, (C6_validity_gate.1 [] [] notFoundPage [] []).1 (by decide)⟩

/- ========== CrawlOrchestrator state: acceptance and deduplication ========== -/

/-- The mutable crawl state owned by the orchestrator: in-memory result batch
and the telephone identity set. -/
structure ScrapState where
  results : List ProviderData
  existing_telephones : List (List Char)

/-- The per-link step of the run loop (src/main.py lines 678-692): a scraped
record is appended and its telephone remembered; a `None` outcome leaves the
state unchanged. -/
def processScraped (st : ScrapState) (r : Option ProviderData) : ScrapState :=
  match r with
  | none => st
  | some d =>
    { results := st.results ++ [d],
      existing_telephones :=
        add_telephone_to_memory st.existing_telephones d.telephone }

/-- C1: for a candidate page passing the validity gates, the parser produces a
record (and the run loop appends it) iff the extracted telephone is empty or
its normalisation is absent from the telephone identity set at acceptance
time; and the per-link step never removes an element from the identity set. -/
theorem C1_dedup_gate (st : ScrapState) (url : List Char) (p : DetailPage)
    (ty loc : List Char) (hg : passesPreDupGates p = true) :
    ((scrape_detail_page st.existing_telephones url p ty loc).isSome ↔
      (extract_telephone p.rawText = [] ∨
        clean_telephone (extract_telephone p.rawText) ∉ st.existing_telephones)) ∧
    (∀ r : Option ProviderData, ∀ x ∈ st.existing_telephones,
      x ∈ (processScraped st r).existing_telephones) ∧
    (∀ d : ProviderData, (processScraped st (some d)).results = st.results ++ [d]) := by
  refine ⟨?_, ?_, fun d => rfl⟩
  case refine_2 =>
    intro r x hx
    cases r with
    | none => exact hx
    | some d => exact add_telephone_mono _ _ x hx
  unfold passesPreDupGates at hg
  simp only [Bool.and_eq_true, Bool.not_eq_true'] at hg
  obtain ⟨⟨⟨⟨⟨h1, h2⟩, h3⟩, h4⟩, h5⟩, h6⟩ := hg
  unfold scrape_detail_page
  dsimp only
  split_ifs with g1 g2 g3 g4 g5 g6
  · rw [h1] at g1
    exact absurd g1 (by decide)
  · rw [h2] at g2
    exact absurd g2 (by decide)
  · rw [h3] at g3
    exact absurd g3 (by decide)
  · rw [h4] at g4
    exact absurd g4 (by decide)
  · rw [Bool.or_eq_true, h5, h6] at g5
    simp at g5
  · refine iff_of_false (by simp) ?_
    intro hor
    rw [Bool.and_eq_true] at g6
    obtain ⟨gt, gd⟩ := g6
    have h0 : extract_telephone p.rawText ≠ [] := by
      intro hnil
      rw [hnil] at gt
      exact absurd gt (by decide)
    rcases hor with h0n | hnm
    · exact h0 h0n
    · unfold is_duplicate_telephone at gd
      rw [if_neg h0] at gd
      exact hnm (by simpa [List.contains] using gd)
  · refine iff_of_true (by simp) ?_
    by_cases h0 : extract_telephone p.rawText = []
    · exact Or.inl h0
    · right
      intro hmem
      apply g6
      have hne : (extract_telephone p.rawText).isEmpty = false :=
        List.isEmpty_eq_false.2 h0
      rw [Bool.and_eq_true]
      constructor
      · rw [hne]
        rfl
      · unfold is_duplicate_telephone
        rw [if_neg h0]
        simpa [List.contains] using hmem

set_option maxRecDepth 100000 in
/-- C1 (witness): the dedup gate evaluated at the concrete Sunshine page and
the empty identity set. -/
theorem C1_dedup_gate_witness :
    passesPreDupGates sunshinePage = true ∧
    ((scrape_detail_page ([] : List (List Char)) sunshineUrl sunshinePage
        (strL ("aged-care-homes")) (strL ("SYDNEY NSW 2000"))).isSome ↔
      (extract_telephone sunshinePage.rawText = [] ∨
        clean_telephone (extract_telephone sunshinePage.rawText) ∉
          ([] : List (List Char)))) :=
  ⟨by decide,
    (C1_dedup_gate ⟨[], []⟩ sunshineUrl sunshinePage (strL ("aged-care-homes"))
      (strL ("SYDNEY NSW 2000")) (by decide)).1⟩

/- ========== ResultLinkHarvester ========== -/

/-- A result card as the link harvester sees it: for each link selector of the
ordered selector list, the href attributes of the anchors it matches inside
the card (an empty string models a missing href attribute). -/
abbrev CardT := List (List (List Char))

/-- A loaded results page as the link harvester sees it: for each card
selector, the cards it matches; plus the site-wide provider anchors used by
the broad fallback scan. -/
structure ResultsPage where
  cardsBySelector : List (List CardT)
  broadHrefs : List (List Char)

/-- The absolute-URL normalisation of `extract_all_links_from_cards`
(src/main.py line 332). -/
def toFullUrl (href : List Char) : List Char :=
  if startsWithL (strL ("http")) href then href
  else strL ("https://www.myagedcare.gov.au") ++ href

/-- The keep-filter applied to each candidate URL (line 335): provider path
segment present, not a results URL, not already collected. -/
def acceptLink (links : List (List Char)) (u : List Char) : Bool :=
  containsSub (strL ("/find-a-provider/")) u && !containsSub resultsNeedle u &&
    !links.contains u

/-- The innermost href loop (lines 327-340): append the first non-empty href
whose normalised URL passes the filter, then stop for this selector. -/
def tryHrefs (links : List (List Char)) : List (List Char) → List (List Char)
  | [] => links
  | h :: t =>
    if h.isEmpty then tryHrefs links t
    else
      let u := toFullUrl h
      if acceptLink links u then links ++ [u] else tryHrefs links t

/-- The link-selector loop for the card at index `i` (lines 321-346): try each
selector in order, stopping once the collected count exceeds the card index. -/
def processCard (i : Nat) (links : List (List Char)) : CardT → List (List Char)
  | [] => links
  | hs :: rest =>
    let links2 := tryHrefs links hs
    if !links2.isEmpty && decide (i < links2.length) then links2
    else processCard i links2 rest

/-- The card loop for one card selector (lines 307-350). -/
def processCardsAux : Nat → List (List Char) → List CardT → List (List Char)
  | _, links, [] => links
  | i, links, c :: cs => processCardsAux (i + 1) (processCard i links c) cs

/-- The card-selector loop (lines 301-353); the source iterates every
selector — it has no break after the first selector that yields cards. -/
def processSelectors (links : List (List Char)) : List (List CardT) → List (List Char)
  | [] => links
  | cs :: rest => processSelectors (processCardsAux 0 links cs) rest

/-- The broad site-wide fallback scan (lines 356-372). -/
def broadScan (links : List (List Char)) : List (List Char) → List (List Char)
  | [] => links
  | h :: t =>
    if h.isEmpty then broadScan links t
    else
      let u := toFullUrl h
      if acceptLink links u then broadScan (links ++ [u]) t else broadScan links t

/-- The harvested link list before the cap (lines 285-375): card extraction,
broad fallback when nothing was found, then the `results` post-filter. -/
def harvestLinks (p : ResultsPage) : List (List Char) :=
  let links := processSelectors [] p.cardsBySelector
  let links2 := if links.isEmpty then broadScan [] p.broadHrefs else links
  links2.filter (fun l => !containsSub resultsNeedle l)

/-- Embeds `extract_all_links_from_cards` (src/main.py lines 285-384); the cap
argument models `LINK_PER_SEARCH` (`none` is the Python `None`). -/
def extract_all_links_from_cards (p : ResultsPage) (linkPerSearch : Option Nat) :
    List (List Char) :=
  let links := harvestLinks p
  match linkPerSearch with
  | some c => if 0 < c then links.take c else links
  | none => links

/- ========== Harvester invariants ========== -/

/-- Every kept link is absolute, contains the provider segment and is not a
results URL. -/
def goodLink (u : List Char) : Bool :=
  startsWithL (strL ("http")) u && containsSub (strL ("/find-a-provider/")) u &&
    !containsSub resultsNeedle u

theorem startsWithL_append_of {n a : List Char} (h : startsWithL n a = true)
    (b : List Char) : startsWithL n (a ++ b) = true := by
  induction n generalizing a with
  | nil => rfl
  | cons c nt ih =>
    cases a with
    | nil => simp [startsWithL] at h
    | cons d a2 =>
      simp only [startsWithL, Bool.and_eq_true] at h ⊢
      exact ⟨h.1, ih h.2⟩

theorem toFullUrl_starts (h : List Char) :
    startsWithL (strL ("http")) (toFullUrl h) = true := by
  unfold toFullUrl
  by_cases hs : startsWithL (strL ("http")) h = true
  · rw [if_pos hs]
    exact hs
  · rw [if_neg hs]
    exact startsWithL_append_of (n := strL ("http"))
      (a := strL ("https://www.myagedcare.gov.au")) (by decide) h

theorem toFullUrl_good {links : List (List Char)} {h : List Char}
    (ha : acceptLink links (toFullUrl h) = true) :
    goodLink (toFullUrl h) = true ∧ toFullUrl h ∉ links := by
  unfold acceptLink at ha
  simp only [Bool.and_eq_true] at ha
  obtain ⟨⟨h1, h2⟩, h3⟩ := ha
  constructor
  · unfold goodLink
    simp only [Bool.and_eq_true]
    exact ⟨⟨toFullUrl_starts h, h1⟩, h2⟩
  · simpa [List.contains] using h3

theorem tryHrefs_cases (hs : List (List Char)) (links : List (List Char)) :
    tryHrefs links hs = links ∨
    ∃ h0 ∈ hs, acceptLink links (toFullUrl h0) = true ∧
      tryHrefs links hs = links ++ [toFullUrl h0] := by
  induction hs with
  | nil => exact Or.inl rfl
  | cons h t ih =>
    unfold tryHrefs
    dsimp only
    by_cases he : h.isEmpty = true
    · rw [if_pos he]
      rcases ih with h1 | ⟨h0, hm, ha, he2⟩
      · exact Or.inl h1
      · exact Or.inr ⟨h0, List.mem_cons_of_mem _ hm, ha, he2⟩
    · rw [if_neg he]
      by_cases ha : acceptLink links (toFullUrl h) = true
      · rw [if_pos ha]
        exact Or.inr ⟨h, List.mem_cons_self .., ha, rfl⟩
      · rw [if_neg ha]
        rcases ih with h1 | ⟨h0, hm, ha2, he2⟩
        · exact Or.inl h1
        · exact Or.inr ⟨h0, List.mem_cons_of_mem _ hm, ha2, he2⟩

/-- The accumulator invariant: duplicate-free and every element good. -/
def linksInv (links : List (List Char)) : Prop :=
  links.Nodup ∧ ∀ u ∈ links, goodLink u = true

theorem linksInv_snoc {links : List (List Char)} (hI : linksInv links)
    {u : List Char} (hg : goodLink u = true) (hn : u ∉ links) :
    linksInv (links ++ [u]) := by
  constructor
  · exact List.nodup_append.2 ⟨hI.1, List.nodup_singleton _,
      fun a hal hau => by
        rw [List.mem_singleton] at hau
        exact hn (hau ▸ hal)⟩
  · intro x hx
    rcases List.mem_append.1 hx with h1 | h1
    · exact hI.2 x h1
    · rw [List.mem_singleton] at h1
      exact h1 ▸ hg

theorem tryHrefs_inv {links : List (List Char)} (hI : linksInv links)
    (hs : List (List Char)) : linksInv (tryHrefs links hs) := by
  rcases tryHrefs_cases hs links with h1 | ⟨h0, _, ha, he⟩
  · rw [h1]
    exact hI
  · rw [he]
    obtain ⟨hg, hn⟩ := toFullUrl_good ha
    exact linksInv_snoc hI hg hn

theorem processCard_inv {i : Nat} {card : CardT} :
    ∀ {links : List (List Char)}, linksInv links →
      linksInv (processCard i links card) := by
  induction card with
  | nil => intro links hI; exact hI
  | cons hs rest ih =>
    intro links hI
    unfold processCard
    dsimp only
    by_cases hb : (!(tryHrefs links hs).isEmpty &&
        decide (i < (tryHrefs links hs).length)) = true
    · rw [if_pos hb]
      exact tryHrefs_inv hI hs
    · rw [if_neg hb]
      exact ih (tryHrefs_inv hI hs)

theorem processCardsAux_inv {cards : List CardT} :
    ∀ {i : Nat} {links : List (List Char)}, linksInv links →
      linksInv (processCardsAux i links cards) := by
  induction cards with
  | nil => intro i links hI; exact hI
  | cons c cs ih =>
    intro i links hI
    unfold processCardsAux
    exact ih (processCard_inv hI)

theorem processSelectors_inv {sels : List (List CardT)} :
    ∀ {links : List (List Char)}, linksInv links →
      linksInv (processSelectors links sels) := by
  induction sels with
  | nil => intro links hI; exact hI
  | cons cs rest ih =>
    intro links hI
    unfold processSelectors
    exact ih (processCardsAux_inv hI)

theorem broadScan_inv {hs : List (List Char)} :
    ∀ {links : List (List Char)}, linksInv links →
      linksInv (broadScan links hs) := by
  induction hs with
  | nil => intro links hI; exact hI
  | cons h t ih =>
    intro links hI
    unfold broadScan
    dsimp only
    by_cases he : h.isEmpty = true
    · rw [if_pos he]
      exact ih hI
    · rw [if_neg he]
      by_cases ha : acceptLink links (toFullUrl h) = true
      · rw [if_pos ha]
        obtain ⟨hg, hn⟩ := toFullUrl_good ha
        exact ih (linksInv_snoc hI hg hn)
      · rw [if_neg ha]
        exact ih hI

theorem harvestLinks_inv (p : ResultsPage) :
    (harvestLinks p).Nodup ∧ ∀ u ∈ harvestLinks p, goodLink u = true := by
  have h0 : linksInv ([] : List (List Char)) := ⟨List.nodup_nil, by simp⟩
  have h2 : linksInv (if (processSelectors [] p.cardsBySelector).isEmpty then
      broadScan [] p.broadHrefs else processSelectors [] p.cardsBySelector) := by
    by_cases he : (processSelectors [] p.cardsBySelector).isEmpty = true
    · rw [if_pos he]
      exact broadScan_inv h0
    · rw [if_neg he]
      exact processSelectors_inv h0
  unfold harvestLinks
  dsimp only
  constructor
  · exact h2.1.filter _
  · intro u hu
    exact h2.2 u (List.mem_of_mem_filter hu)

/- ========== C3 and C4 ========== -/

/-- Modelled from the claim wording of C3: the first qualifying href of a
flattened ordered href list (normalised, provider segment, not results, not
already collected). -/
def firstQualifying (links : List (List Char)) : List (List Char) → Option (List Char)
  | [] => none
  | h :: t =>
    if h.isEmpty then firstQualifying links t
    else
      let u := toFullUrl h
      if acceptLink links u then some u else firstQualifying links t

/-- Modelled from the claim wording of C3: per card at most one href, the
first qualifying one over the ordered link selectors. -/
def harvestC3SpecCards (links : List (List Char)) : List CardT → List (List Char)
  | [] => links
  | c :: cs =>
    match firstQualifying links c.flatten with
    | some u => harvestC3SpecCards (links ++ [u]) cs
    | none => harvestC3SpecCards links cs

/-- Modelled from the claim wording of C3: use only the first card selector
that yields any cards, take at most one href per card; fallback, post-filter
and cap as in the code. -/
def harvestC3Spec (p : ResultsPage) (linkPerSearch : Option Nat) : List (List Char) :=
  let cards := (p.cardsBySelector.find? (fun cs => !cs.isEmpty)).getD []
  let links := harvestC3SpecCards [] cards
  let links2 := if links.isEmpty then broadScan [] p.broadHrefs else links
  let links3 := links2.filter (fun l => !containsSub resultsNeedle l)
  match linkPerSearch with
  | some c => if 0 < c then links3.take c else links3
  | none => links3

/-- A page where the first card selector yields one card with one link and the
second card selector yields a different card with another link. -/
def cpA : ResultsPage :=
  { cardsBySelector :=
      [[[[strL ("/find-a-provider/a1")]]], [[[strL ("/find-a-provider/b2")]]]],
    broadHrefs := [] }

/-- A page with one card selector and two cards: the first card has no links,
the second card has one href under each of two link selectors. -/
def cpB : ResultsPage :=
  { cardsBySelector :=
      [[[], [[strL ("/find-a-provider/a2")], [strL ("/find-a-provider/b3")]]]],
    broadHrefs := [] }

/-- C3 (counterexample): the harvester also collects the link contributed by
the second card selector although the first selector yielded a card, and a
single card can contribute two hrefs — both contradicting the claim that only
the first matching selector is processed and at most one href is taken per
card. -/
theorem C3_counterexample :
    extract_all_links_from_cards cpA none ≠ harvestC3Spec cpA none ∧
    extract_all_links_from_cards cpB none ≠ harvestC3Spec cpB none := by
  decide

/-- C3 (amended): the harvester iterates every card-container selector in
order (it does not stop at the first one that yields cards), and within each
card each link-selector attempt contributes at most one href — the first
qualifying one; every kept href is normalised to absolute form, contains the
provider path segment, is not a results-listing URL and was not already
collected, so the harvested list is duplicate-free. -/
theorem C3_link_extraction (p : ResultsPage) :
    (harvestLinks p).Nodup ∧
    (∀ u ∈ harvestLinks p, goodLink u = true) ∧
    (∀ (links : List (List Char)) (hs : List (List Char)),
      tryHrefs links hs = links ∨
      ∃ h0 ∈ hs, acceptLink links (toFullUrl h0) = true ∧
        tryHrefs links hs = links ++ [toFullUrl h0]) := by
  obtain ⟨h1, h2⟩ := harvestLinks_inv p
  exact ⟨h1, h2, fun links hs => tryHrefs_cases hs links⟩

/-- C4: with a positive cap `c`, the harvester output is exactly the first
`min k c` harvested links in discovery order (the length-`c` prefix), has no
duplicates, and contains no results-listing URL; an empty output is an
ordinary value, not an error. -/
theorem C4_link_cap (p : ResultsPage) (c : Nat) (hc : 0 < c) :
    extract_all_links_from_cards p (some c) = (harvestLinks p).take c ∧
    (extract_all_links_from_cards p (some c)).length =
      min (harvestLinks p).length c ∧
    (extract_all_links_from_cards p (some c)).Nodup ∧
    ∀ u ∈ extract_all_links_from_cards p (some c),
      containsSub resultsNeedle u = false := by
  have heq : extract_all_links_from_cards p (some c) = (harvestLinks p).take c := by
    unfold extract_all_links_from_cards
    dsimp only
    rw [if_pos hc]
  refine ⟨heq, ?_, ?_, ?_⟩
  · rw [heq, List.length_take, Nat.min_comm]
  · rw [heq]
    exact (List.take_sublist _ _).nodup (harvestLinks_inv p).1
  · intro u hu
    rw [heq] at hu
    have hmem : u ∈ harvestLinks p := (List.take_sublist _ _).subset hu
    have hg : goodLink u = true := (harvestLinks_inv p).2 u hmem
    unfold goodLink at hg
    simp only [Bool.and_eq_true, Bool.not_eq_true'] at hg
    exact hg.2

/-- A page with three provider cards under the first selector. -/
def capPage : ResultsPage :=
  { cardsBySelector :=
      [[[[strL ("/find-a-provider/p1")]], [[strL ("/find-a-provider/p2")]],
        [[strL ("/find-a-provider/p3")]]]],
    broadHrefs := [] }

/-- C4 (witness): the cap theorem applied at cap 2 to a three-link page. -/
theorem C4_link_cap_witness :
    0 < 2 ∧ extract_all_links_from_cards capPage (some 2) =
      (harvestLinks capPage).take 2 :=
  ⟨by decide, (C4_link_cap capPage 2 (by decide)).1⟩

/- ========== PageReadinessDetector: wait_for_results ========== -/

/-- The polling oracle for a search-results page: whether the no-results
indicators match at the t-th check, and whether some result selector has a
visible element at the t-th check. -/
structure PollPage where
  noRes : Nat → Bool
  hasRes : Nat → Bool

/-- The outcomes of readiness detection; the source collapses `noResults` and
`unknown` into the boolean `False` it returns. -/
inductive ReadyOutcome where
  | hasResults : ReadyOutcome
  | noResults : ReadyOutcome
  | unknown : ReadyOutcome
deriving DecidableEq

/-- The bounded polling loop of `wait_for_results` (src/main.py lines
259-283): `fuel` counts remaining loop iterations (30 initially), `t` is the
check index, `w` the number of 500 ms waits performed so far; when the loop
is exhausted, one final no-results check runs, else the outcome is unknown. -/
def wfrLoop (p : PollPage) : Nat → Nat → Nat → ReadyOutcome × Nat
  | 0, t, w => if p.noRes t then (.noResults, w) else (.unknown, w)
  | fuel + 1, t, w =>
    if p.noRes t then (.noResults, w)
    else if p.hasRes t then (.hasResults, w)
    else wfrLoop p fuel (t + 1) (w + 1)

/-- Embeds `wait_for_results` (src/main.py lines 242-283): an initial
no-results check, then at most 30 polling iterations at 500 ms intervals,
then one final no-results check. The second component counts the waits. -/
def wait_for_results (p : PollPage) : ReadyOutcome × Nat :=
  if p.noRes 0 then (.noResults, 0) else wfrLoop p 30 1 0

/-- The boolean the source actually returns (`True` only when result elements
were found); the orchestrator skips the (location, category) pair when it is
false. -/
def readyToBool (o : ReadyOutcome) : Bool := o == ReadyOutcome.hasResults

/-- A fixture that never shows a results signal nor a no-results signal. -/
def pollNever : PollPage := { noRes := fun _ => false, hasRes := fun _ => false }

/-- A fixture whose no-results indicators appear only at the final post-loop
check (check index 31). -/
def pollLateNoRes : PollPage :=
  { noRes := fun t => t == 31, hasRes := fun _ => false }

theorem wfrLoop_wait_bound (p : PollPage) :
    ∀ fuel t w, (wfrLoop p fuel t w).2 ≤ w + fuel := by
  intro fuel
  induction fuel with
  | zero =>
    intro t w
    unfold wfrLoop
    split_ifs <;> simp
  | succ n ih =>
    intro t w
    unfold wfrLoop
    split_ifs
    · simp
    · simp
    · calc (wfrLoop p n (t + 1) (w + 1)).2 ≤ (w + 1) + n := ih (t + 1) (w + 1)
        _ ≤ w + (n + 1) := by omega

/-- C7: readiness detection terminates within its polling ceiling — never
more than 30 of the 500 ms waits; on a fixture that never resolves it
performs exactly 30 waits, runs the final no-results check, and returns the
inconclusive outcome, which the orchestrator treats as skip/no-results; the
final check is real: a fixture whose no-results indicators appear only after
the last wait still yields the no-results outcome. -/
theorem C7_polling_bound :
    (∀ p : PollPage, (wait_for_results p).2 ≤ 30) ∧
    wait_for_results pollNever = (ReadyOutcome.unknown, 30) ∧
    readyToBool ReadyOutcome.unknown = false ∧
    wait_for_results pollLateNoRes = (ReadyOutcome.noResults, 30) := by
  refine ⟨?_, rfl, rfl, rfl⟩
  intro p
  unfold wait_for_results
  split_ifs with h
  · simp
  · have hb := wfrLoop_wait_bound p 30 1 0
    simpa using hb

/- ========== Persistence: save_to_csv ========== -/

/-- The persisted columns, in order (src/main.py lines 721-724). -/
def fieldnamesCsv : List (List Char) :=
  [strL ("company_name"), strL ("address"), strL ("suburb"), strL ("state"),
   strL ("postcode"), strL ("telephone"), strL ("email"), strL ("website")]

/-- `dataclasses.asdict` of a `ProviderData`, in field order. -/
def recordDict (d : ProviderData) : List (List Char × List Char) :=
  [(strL ("company_name"), d.company_name), (strL ("address"), d.address),
   (strL ("suburb"), d.suburb), (strL ("state"), d.state),
   (strL ("postcode"), d.postcode), (strL ("telephone"), d.telephone),
   (strL ("email"), d.email), (strL ("website"), d.website),
   (strL ("search_type"), d.search_type),
   (strL ("search_location"), d.search_location),
   (strL ("result_url"), d.result_url)]

/-- Python `row.get(field, "")`. -/
def dictGet (dict : List (List Char × List Char)) (k : List Char) : List Char :=
  match dict.find? (fun kv => kv.1 == k) with
  | some kv => kv.2
  | none => []

/-- The company-name write-time sanitisation (src/main.py lines 743-746):
when the name is nonempty and contains a line break, keep the stripped text
before the first break. -/
def sanitizeCompany (name : List Char) : List Char :=
  if !name.isEmpty && name.contains '\n' then
    pyStrip (name.takeWhile (fun c => !(c == '\n')))
  else name

/-- One written CSV row (src/main.py lines 736-748): the eight fieldnames
looked up in the record dict, the company name sanitised. -/
def csvRowOf (d : ProviderData) : List (List Char) :=
  match fieldnamesCsv.map (fun f => dictGet (recordDict d) f) with
  | c :: rest => sanitizeCompany c :: rest
  | [] => []

/-- Embeds `save_to_csv` (src/main.py lines 714-755) over an abstract
appendable store: `none` models a missing output file; returns the new store
and the cleared in-memory batch. -/
def save_to_csv (results : List ProviderData)
    (store : Option (List (List (List Char)))) :
    Option (List (List (List Char))) × List ProviderData :=
  if results.isEmpty then (store, results)
  else
    let newRows := results.map csvRowOf
    match store with
    | none => (some (fieldnamesCsv :: newRows), [])
    | some rows => (some (rows ++ newRows), [])

/-- C8: every flush writes rows with exactly the eight persisted columns in
their fixed order (search_type, search_location and result_url are never
persisted); the header row is written exactly when the store does not yet
exist and is never re-written on append; and a company name containing a line
break is written as only the (stripped) text before the first break. -/
theorem C8_persisted_shape (results : List ProviderData)
    (store : Option (List (List (List Char)))) (h : results ≠ []) :
    (save_to_csv results none).1 = some (fieldnamesCsv :: results.map csvRowOf) ∧
    (∀ rows, (save_to_csv results (some rows)).1 =
      some (rows ++ results.map csvRowOf)) ∧
    (save_to_csv results store).2 = [] ∧
    (∀ d : ProviderData, csvRowOf d =
      [sanitizeCompany d.company_name, d.address, d.suburb, d.state, d.postcode,
       d.telephone, d.email, d.website] ∧ (csvRowOf d).length = 8) ∧
    (∀ name : List Char, name.contains '\n' = true → name ≠ [] →
      sanitizeCompany name = pyStrip (name.takeWhile (fun c => !(c == '\n')))) := by
  have hne : results.isEmpty = false := List.isEmpty_eq_false.2 h
  refine ⟨?_, ?_, ?_, ?_, ?_⟩
  · unfold save_to_csv
    rw [if_neg (by simp [hne])]
  · intro rows
    unfold save_to_csv
    rw [if_neg (by simp [hne])]
  · unfold save_to_csv
    rw [if_neg (by simp [hne])]
    cases store <;> rfl
  · intro d
    exact ⟨rfl, rfl⟩
  · intro name hc hn
    have hmem : '\n' ∈ name := by simpa [List.contains] using hc
    unfold sanitizeCompany
    rw [if_pos (by simp [List.isEmpty_eq_false.2 hn, hmem])]

/-- A concrete record used by the persistence witness. -/
def sampleRecord : ProviderData :=
  { company_name := strL ("ACME CARE") ++ '\n' :: strL ("extra"),
    address := strL ("1 MAIN ST, TOWN 2000 NSW"), suburb := strL ("TOWN"),
    state := strL ("NSW"), postcode := strL ("2000"),
    telephone := strL ("02 9999 0000"), email := strL ("a@b.co"),
    website := [], search_type := strL ("aged-care-homes"),
    search_location := strL ("TOWN NSW 2000"),
    result_url := strL ("https://www.myagedcare.gov.au/find-a-provider/p/9") }

/-- C8 (witness): the persistence theorem applied to a one-record batch and a
missing store. -/
theorem C8_persisted_shape_witness :
    ([sampleRecord] : List ProviderData) ≠ [] ∧
    (save_to_csv [sampleRecord] none).1 =
      some (fieldnamesCsv :: [sampleRecord].map csvRowOf) :=
  ⟨List.cons_ne_nil _ _, (C8_persisted_shape [sampleRecord] none
    (List.cons_ne_nil _ _)).1⟩

/-- C10: flushing an empty batch is a no-op on the persistent store — the
store is neither created nor modified and no header is written — so a run
that accepts zero records never creates the store at all, no matter how many
per-location flushes happen. -/
theorem C10_empty_flush_noop :
    (∀ store, save_to_csv [] store = (store, [])) ∧
    (∀ n : Nat, Nat.iterate (fun s => (save_to_csv [] s).1) n none = none) := by
  constructor
  · intro store
    rfl
  · intro n
    induction n with
    | zero => rfl
    | succ k ih => exact ih
